import Mathlib

/-!
# Verification of `bdpy.mri.roi` (ROI matcher and orchestration)

Shallow embedding of `src/bdpy/mri/roi.py`:

* `get_roiflag` — bounding-box pre-filter + exact coordinate matching
  (the slow-path ROI matcher).
* `add_roimask` — grid-consistency fast-path decision and fallback.
* `add_roilabel` (annotation branch) — per-region flag vectors, zero-match
  skipping and hemisphere inference.

Coordinates are modelled as triples of rationals; the Python functions that can
raise are modelled in `Option` / `Except`.
-/

/-- One voxel coordinate: an ordered (x, y, z) triple. Equality is exact
component-wise equality, mirroring `np.array_equal` on coordinate columns. -/
structure Coord where
  x : ℚ
  y : ℚ
  z : ℚ
deriving DecidableEq, Repr

/-- Python builtin `min` over a sequence: `none` on the empty sequence
(`ValueError: min() arg is an empty sequence`). -/
def listMin : List ℚ → Option ℚ
  | [] => none
  | a :: as => some (as.foldl min a)

/-- Python builtin `max` over a sequence: `none` on the empty sequence. -/
def listMax : List ℚ → Option ℚ
  | [] => none
  | a :: as => some (as.foldl max a)

/-- The six range indicators of `get_roiflag` (`min_range`/`max_range` for each
of the three axes, summed as integers); a reference voxel is a candidate iff
the sum is 6 (`used_index_array = np.sum(...) == 6`). -/
def rangeCount (xmn xmx ymn ymx zmn zmx : ℚ) (c : Coord) : Nat :=
  (if xmn ≤ c.x then 1 else 0) + (if c.x ≤ xmx then 1 else 0) +
  (if ymn ≤ c.y then 1 else 0) + (if c.y ≤ ymx then 1 else 0) +
  (if zmn ≤ c.z then 1 else 0) + (if c.z ≤ zmx then 1 else 0)

/-- The exact membership test of `get_roiflag`:
`np.any([np.array_equal(epi_xyz, roi_xyz_array_t[k]) for k in range(roi_xyz_num)])`. -/
def matchAny (S : List Coord) (c : Coord) : Bool :=
  S.any (fun s => s = c)

/-- One row of `get_roiflag` for ROI coordinate set `S` against reference grid
`R`: take per-axis min/max of `S` (raising if `S` is empty), keep the
candidate indices of `R` inside the bounding box, and set 1 exactly at the
candidates that equal some coordinate of `S`; everything else stays 0. -/
def roiRow (S R : List Coord) : Option (List ℚ) :=
  match listMin (S.map Coord.x), listMax (S.map Coord.x),
        listMin (S.map Coord.y), listMax (S.map Coord.y),
        listMin (S.map Coord.z), listMax (S.map Coord.z) with
  | some xmn, some xmx, some ymn, some ymx, some zmn, some zmx =>
      some (R.map (fun c =>
        if rangeCount xmn xmx ymn ymx zmn zmx c = 6 ∧ matchAny S c
        then (1 : ℚ) else 0))
  | _, _, _, _, _, _ => none

/-- `get_roiflag(roi_xyz_list, epi_xyz_array)`: one row per ROI coordinate
set, computed in order; an exception in any row (empty ROI) aborts the whole
call. -/
def get_roiflag (rois : List (List Coord)) (R : List Coord) :
    Option (List (List ℚ)) :=
  match rois with
  | [] => some []
  | S :: rest => do
      let row ← roiRow S R
      let rows ← get_roiflag rest R
      pure (row :: rows)

/-- Brute-force all-pairs reference row, from the spec's words: entry `j` is 1
iff the `j`-th coordinate of `R` equals at least one coordinate of `S`
(component-wise on all three axes), else 0. -/
def bruteForceRow (S R : List Coord) : List ℚ :=
  R.map (fun c => if c ∈ S then (1 : ℚ) else 0)

/-- One loaded ROI mask, as returned by `load_mri`: a coordinate per voxel
(`mask_xyz`, transposed to a list of triples) and the parallel voxel values
(`mask_v`). -/
structure Mask where
  coords : List Coord
  values : List ℚ
deriving DecidableEq, Repr

/-- The ROI source extracted from a mask in `add_roimask`:
`mask_xyz[:, (mask_v == 1).flatten()]` — the coordinates whose parallel voxel
value equals 1. -/
def roiSource (m : Mask) : List Coord :=
  (m.coords.zip m.values).filterMap (fun p => if p.2 = 1 then some p.1 else none)

/-- Reference definition following the spec's words ("keeping only coordinates
whose voxel value is nonzero"), for comparison with `roiSource`. -/
def nonzeroSource (m : Mask) : List Coord :=
  (m.coords.zip m.values).filterMap (fun p => if p.2 ≠ 0 then some p.1 else none)

/-- `(voxel_xyz == mask_xyz).all()` with NumPy broadcasting on the voxel axis:
equal lengths compare elementwise; length 1 on either side broadcasts that
single column against the other array; any other length mismatch is an error
(`none`). -/
def broadcastEqAll (R C : List Coord) : Option Bool :=
  if R.length = C.length then some (decide (R = C))
  else if R.length = 1 ∨ C.length = 1 then
    some (C.all (fun c => R.all (fun r => r = c)))
  else none

/-- The grid-consistency flag of `add_roimask`: starts `True` and is cleared by
any mask whose full coordinate array is not elementwise equal to the grid; a
shape error in a comparison aborts the call. -/
def voxelConsistency (R : List Coord) (masks : List Mask) : Option Bool :=
  masks.foldlM (fun acc m => (broadcastEqAll R m.coords).map (fun b => acc && b)) true

/-- `np.vstack`: stacks the rows, raising on an empty list or on rows of
unequal length. -/
def vstack (rows : List (List ℚ)) : Option (List (List ℚ)) :=
  match rows with
  | [] => none
  | r :: rs => if rs.all (fun s => s.length = r.length) then some (r :: rs) else none

/-- `add_roimask` (ROI-flag computation): if every mask's full coordinate array
equals the voxel grid, stack the masks' own value vectors (`np.vstack(mask_v_all)`);
otherwise run `get_roiflag` on the filtered ROI sources. -/
def add_roimask (R : List Coord) (masks : List Mask) : Option (List (List ℚ)) := do
  let cons ← voxelConsistency R masks
  if cons then
    vstack (masks.map Mask.values)
  else
    get_roiflag (masks.map roiSource) R

deriving instance DecidableEq for Except

/-- `needle` occurs at the start of `hay` (helper for Python's substring test). -/
def startsWith : List Char → List Char → Bool
  | _, [] => true
  | [], _ :: _ => false
  | h :: hs, n :: ns => h = n && startsWith hs ns

/-- Python's `needle in hay` on strings: contiguous-substring containment. -/
def strContains (hay needle : List Char) : Bool :=
  match hay with
  | [] => startsWith [] needle
  | _ :: t => startsWith hay needle || strContains t needle

/-- The left-hemisphere marker searched for in `vertex_data`. -/
def leftMarker : List Char := ['L', 'e', 'f', 't']

/-- The right-hemisphere marker searched for in `vertex_data`. -/
def rightMarker : List Char := ['R', 'i', 'g', 'h', 't']

/-- The hemisphere string chosen by `add_roilabel`: `'lh'` when `vertex_data`
contains `'Left'` (checked first), else `'rh'` when it contains `'Right'`,
else `none` (the `ValueError('Invalid vertex_data: ...')` branch). -/
def hemiOf (vd : List Char) : Option (List Char) :=
  if strContains vd leftMarker then some ['l', 'h']
  else if strContains vd rightMarker then some ['r', 'h']
  else none

/-- The per-region flag vector `(labels == label_id).astype(int)` over the
annot file's per-vertex label ids. -/
def regionFlag (labels : List ℤ) (i : ℤ) : List ℤ :=
  labels.map (fun l => if l = i then 1 else 0)

/-- `roi_name = prefix + '_' + hemi + '.' + name`. -/
def roiName (pre hemi name : List Char) : List Char :=
  pre ++ ('_' :: hemi) ++ ('.' :: name)

/-- The loop of `add_roilabel` over an annot file's region names, starting at
label id `i`: a region whose flag vector sums to zero is recorded as a
diagnostic and skipped (before any hemisphere inference); otherwise the
hemisphere is inferred (raising when it cannot be) and one named column is
emitted. Returns (columns written, diagnostic-skipped region names). -/
def annotColumns (labels : List ℤ) (vd pre : List Char) :
    ℤ → List (List Char) → Except Unit (List (List Char × List ℤ) × List (List Char))
  | _, [] => .ok ([], [])
  | i, name :: rest =>
    let flag := regionFlag labels i
    if flag.sum = 0 then
      (annotColumns labels vd pre (i + 1) rest).map (fun r => (r.1, name :: r.2))
    else
      match hemiOf vd with
      | none => .error ()
      | some hemi =>
          (annotColumns labels vd pre (i + 1) rest).map
            (fun r => ((roiName pre hemi name, flag) :: r.1, r.2))

/-- The annot (`.annot`) branch of `add_roilabel`: process the named regions
with zero-based label ids. -/
def add_roilabel_annot (labels : List ℤ) (names : List (List Char))
    (vd pre : List Char) :
    Except Unit (List (List Char × List ℤ) × List (List Char)) :=
  annotColumns labels vd pre 0 names

/-- Region names paired with their zero-based label ids, starting from `i`
(Python's `enumerate`). -/
def enumRegions (i : ℤ) : List (List Char) → List (ℤ × List Char)
  | [] => []
  | n :: rest => (i, n) :: enumRegions (i + 1) rest

/-- Closed form of the columns written for an annot file: one column per
region whose flag vector is not all zero, in region order. -/
def writtenColumns (labels : List ℤ) (pre hemi : List Char)
    (regions : List (ℤ × List Char)) : List (List Char × List ℤ) :=
  (regions.filter (fun p => !decide ((regionFlag labels p.1).sum = 0))).map
    (fun p => (roiName pre hemi p.2, regionFlag labels p.1))

/-- Closed form of the diagnostic-skipped region names: the regions whose flag
vector is all zero, in region order. -/
def skippedRegions (labels : List ℤ) (regions : List (ℤ × List Char)) :
    List (List Char) :=
  (regions.filter (fun p => decide ((regionFlag labels p.1).sum = 0))).map Prod.snd

/-- Formalisation of the claim's phrase "region `i` matches `k` vertices of
the container's `vertex_index` metadata": the number of entries of
`vertex_index` that index a vertex of the annot file carrying label id `i`
(this is how the `.label` branch matches vertices; the annot branch itself
never consults `vertex_index`). -/
def containerMatchCount (labels : List ℤ) (vindex : List ℕ) (i : ℤ) : ℕ :=
  (vindex.filter (fun v => labels.get? v = some i)).length
/-! ## Lemmas about the bounding-box pre-filter -/

lemma foldl_min_le_init (bs : List ℚ) (c : ℚ) : bs.foldl min c ≤ c := by
  induction bs generalizing c with
  | nil => simp
  | cons b bs ih => exact le_trans (ih (min c b)) (min_le_left c b)

lemma foldl_max_init_le (bs : List ℚ) (c : ℚ) : c ≤ bs.foldl max c := by
  induction bs generalizing c with
  | nil => simp
  | cons b bs ih => exact le_trans (le_max_left c b) (ih (max c b))

lemma foldl_min_le_mem (as : List ℚ) (a x : ℚ) (hx : x = a ∨ x ∈ as) :
    as.foldl min a ≤ x := by
  induction as generalizing a with
  | nil => simp at hx; simp [hx]
  | cons b bs ih =>
    rcases hx with rfl | hx
    · exact le_trans (foldl_min_le_init bs (min x b)) (min_le_left x b)
    · rcases List.mem_cons.mp hx with rfl | hx
      · exact le_trans (foldl_min_le_init bs (min a x)) (min_le_right a x)
      · exact ih (min a b) (Or.inr hx)

lemma foldl_max_mem_le (as : List ℚ) (a x : ℚ) (hx : x = a ∨ x ∈ as) :
    x ≤ as.foldl max a := by
  induction as generalizing a with
  | nil => simp at hx; simp [hx]
  | cons b bs ih =>
    rcases hx with rfl | hx
    · exact le_trans (le_max_left x b) (foldl_max_init_le bs (max x b))
    · rcases List.mem_cons.mp hx with rfl | hx
      · exact le_trans (le_max_right a x) (foldl_max_init_le bs (max a x))
      · exact ih (max a b) (Or.inr hx)

lemma rangeCount_six {xmn xmx ymn ymx zmn zmx : ℚ} {c : Coord}
    (h1 : xmn ≤ c.x) (h2 : c.x ≤ xmx) (h3 : ymn ≤ c.y) (h4 : c.y ≤ ymx)
    (h5 : zmn ≤ c.z) (h6 : c.z ≤ zmx) :
    rangeCount xmn xmx ymn ymx zmn zmx c = 6 := by
  simp [rangeCount, h1, h2, h3, h4, h5, h6]

lemma matchAny_iff (S : List Coord) (c : Coord) : matchAny S c = true ↔ c ∈ S := by
  simp [matchAny, List.any_eq_true]

/-- The candidate pre-filter of `get_roiflag` never drops a true match, hence
each row equals the brute-force all-pairs row. -/
lemma roiRow_eq_brute (S R : List Coord) (hS : S ≠ []) :
    roiRow S R = some (bruteForceRow S R) := by
  obtain ⟨s, S', rfl⟩ := List.exists_cons_of_ne_nil hS
  show some _ = some _
  congr 1
  apply List.map_congr_left
  intro c _
  by_cases hc : c ∈ s :: S'
  · have hx : c.x = s.x ∨ c.x ∈ S'.map Coord.x := by
      rcases List.mem_cons.mp hc with rfl | h
      · exact Or.inl rfl
      · exact Or.inr (List.mem_map_of_mem Coord.x h)
    have hy : c.y = s.y ∨ c.y ∈ S'.map Coord.y := by
      rcases List.mem_cons.mp hc with rfl | h
      · exact Or.inl rfl
      · exact Or.inr (List.mem_map_of_mem Coord.y h)
    have hz : c.z = s.z ∨ c.z ∈ S'.map Coord.z := by
      rcases List.mem_cons.mp hc with rfl | h
      · exact Or.inl rfl
      · exact Or.inr (List.mem_map_of_mem Coord.z h)
    rw [if_pos, if_pos hc]
    exact ⟨rangeCount_six
        (foldl_min_le_mem _ _ _ hx) (foldl_max_mem_le _ _ _ hx)
        (foldl_min_le_mem _ _ _ hy) (foldl_max_mem_le _ _ _ hy)
        (foldl_min_le_mem _ _ _ hz) (foldl_max_mem_le _ _ _ hz),
      (matchAny_iff _ _).mpr hc⟩
  · rw [if_neg, if_neg hc]
    rintro ⟨-, hm⟩
    exact hc ((matchAny_iff _ _).mp hm)

lemma roiRow_nil (R : List Coord) : roiRow [] R = none := rfl

/-- `get_roiflag` on all-non-empty ROI sources: every row is the brute-force
row of its own ROI source. -/
lemma get_roiflag_eq_brute (rois : List (List Coord)) (R : List Coord)
    (h : ∀ S ∈ rois, S ≠ []) :
    get_roiflag rois R = some (rois.map (fun S => bruteForceRow S R)) := by
  induction rois with
  | nil => rfl
  | cons S rest ih =>
    have hS := h S (List.mem_cons_self S rest)
    have hrest := ih (fun T hT => h T (List.mem_cons_of_mem S hT))
    simp [get_roiflag, roiRow_eq_brute S R hS, hrest]

lemma get_roiflag_none_of_mem_nil (rois : List (List Coord)) (R : List Coord)
    (h : [] ∈ rois) : get_roiflag rois R = none := by
  induction rois with
  | nil => simp at h
  | cons S rest ih =>
    rcases List.mem_cons.mp h with rfl | h
    · simp [get_roiflag, roiRow_nil]
    · simp only [get_roiflag]
      cases roiRow S R with
      | none => rfl
      | some row => simp [ih h]

/-! ## Lemmas about the fast-path decision of `add_roimask` -/

lemma broadcastEqAll_of_length_eq {R C : List Coord} (h : R.length = C.length) :
    broadcastEqAll R C = some (decide (C = R)) := by
  simp only [broadcastEqAll, if_pos h]
  congr 1
  by_cases hc : C = R <;> simp [hc]
  exact fun hr => hc hr.symm

lemma voxelConsistency_of_lengths (R : List Coord) (masks : List Mask)
    (hlen : ∀ m ∈ masks, m.coords.length = R.length) :
    voxelConsistency R masks = some (masks.all (fun m => decide (m.coords = R))) := by
  unfold voxelConsistency
  suffices h : ∀ acc : Bool,
      masks.foldlM (fun acc m => (broadcastEqAll R m.coords).map (fun b => acc && b)) acc
        = some (acc && masks.all (fun m => decide (m.coords = R))) by
    simpa using h true
  induction masks with
  | nil => intro acc; simp
  | cons m rest ih =>
    intro acc
    have hm : m.coords.length = R.length := hlen m (List.mem_cons_self m rest)
    have hrest := ih (fun m' hm' => hlen m' (List.mem_cons_of_mem m hm'))
    simp only [List.foldlM, broadcastEqAll_of_length_eq hm.symm, Option.map_some']
    exact (hrest (acc && decide (m.coords = R))).trans (by simp [Bool.and_assoc])

lemma voxelConsistency_none (R : List Coord) (masks : List Mask)
    (h : ∃ m ∈ masks, m.coords.length ≠ R.length ∧ m.coords.length ≠ 1 ∧ R.length ≠ 1) :
    voxelConsistency R masks = none := by
  unfold voxelConsistency
  suffices hs : ∀ acc : Bool,
      masks.foldlM (fun acc m => (broadcastEqAll R m.coords).map (fun b => acc && b)) acc
        = none by
    exact hs true
  induction masks with
  | nil => simp at h
  | cons m rest ih =>
    intro acc
    rcases h with ⟨m', hm', hbad⟩
    rcases List.mem_cons.mp hm' with rfl | hm'
    · have : broadcastEqAll R m'.coords = none := by
        simp only [broadcastEqAll]
        rw [if_neg (fun hr => hbad.1 hr.symm), if_neg]
        rintro (h1 | h1)
        · exact hbad.2.2 h1
        · exact hbad.2.1 h1
      simp [List.foldlM, this]
    · simp only [List.foldlM]
      cases broadcastEqAll R m.coords with
      | none => rfl
      | some b => simpa using ih ⟨m', hm', hbad⟩ (acc && b)

lemma add_roimask_of_consistent (R : List Coord) (masks : List Mask)
    (h : voxelConsistency R masks = some true) :
    add_roimask R masks = vstack (masks.map Mask.values) := by
  simp [add_roimask, h]

lemma add_roimask_of_inconsistent (R : List Coord) (masks : List Mask)
    (h : voxelConsistency R masks = some false) :
    add_roimask R masks = get_roiflag (masks.map roiSource) R := by
  simp [add_roimask, h]

/-! ## The ROI source as a filter on the mask's voxels -/

lemma mem_roiSource_iff_zip (m : Mask) (c : Coord) :
    c ∈ roiSource m ↔ (c, (1 : ℚ)) ∈ m.coords.zip m.values := by
  simp only [roiSource, List.mem_filterMap]
  constructor
  · rintro ⟨⟨a, b⟩, hmem, hf⟩
    by_cases hb : b = 1
    · rw [if_pos hb] at hf
      obtain rfl : a = c := Option.some.inj hf
      rw [hb] at hmem
      exact hmem
    · rw [if_neg hb] at hf
      exact absurd hf (by simp)
  · intro h
    exact ⟨(c, 1), h, by simp⟩

lemma zip_length_of_eq {α β : Type _} (l : List α) (l' : List β)
    (h : l'.length = l.length) : (l.zip l').length = l.length := by
  simp [List.length_zip, h]

lemma mem_roiSource_nodup (R : List Coord) (vals : List ℚ) (hnd : R.Nodup)
    (hlen : vals.length = R.length) (j : ℕ) (hj : j < R.length)
    (hj' : j < vals.length) :
    R[j] ∈ roiSource ⟨R, vals⟩ ↔ vals[j] = 1 := by
  rw [mem_roiSource_iff_zip]
  constructor
  · intro h
    obtain ⟨i, hi, hget⟩ := List.mem_iff_getElem.mp h
    have hiR : i < R.length := by
      rw [zip_length_of_eq R vals hlen] at hi
      exact hi
    have hiv : i < vals.length := by rw [hlen]; exact hiR
    rw [List.getElem_zip] at hget
    have hRij : R[i] = R[j] := congrArg Prod.fst hget
    have : i = j := (List.Nodup.getElem_inj_iff hnd).mp hRij
    subst this
    exact congrArg Prod.snd hget
  · intro h
    have hz : j < (R.zip vals).length := by
      rw [zip_length_of_eq R vals hlen]; exact hj
    have : (R.zip vals)[j] = (R[j], (1 : ℚ)) := by
      rw [List.getElem_zip, h]
    rw [← this]
    exact List.getElem_mem hz

lemma roiSource_ne_nil (R : List Coord) (vals : List ℚ)
    (hlen : vals.length = R.length) (hone : (1 : ℚ) ∈ vals) :
    roiSource ⟨R, vals⟩ ≠ [] := by
  obtain ⟨i, hi, hget⟩ := List.mem_iff_getElem.mp hone
  have hiR : i < R.length := by rw [← hlen]; exact hi
  have hz : i < (R.zip vals).length := by
    rw [zip_length_of_eq R vals hlen]; exact hiR
  have hmem : (R[i], (1 : ℚ)) ∈ R.zip vals := by
    have : (R.zip vals)[i] = (R[i], (1 : ℚ)) := by rw [List.getElem_zip, hget]
    rw [← this]
    exact List.getElem_mem hz
  exact List.ne_nil_of_mem ((mem_roiSource_iff_zip ⟨R, vals⟩ R[i]).mpr hmem)

/-- On a mask whose coordinates are exactly the (duplicate-free) grid and whose
values are 0/1, the brute-force row of its filtered ROI source reproduces the
mask's own value vector. -/
lemma bruteForceRow_indicator (R : List Coord) (vals : List ℚ) (hnd : R.Nodup)
    (hlen : vals.length = R.length) (h01 : ∀ v ∈ vals, v = 0 ∨ v = 1) :
    bruteForceRow (roiSource ⟨R, vals⟩) R = vals := by
  apply List.ext_getElem
  · simp [bruteForceRow, hlen]
  · intro i h1 h2
    have hiR : i < R.length := by
      simpa [bruteForceRow] using h1
    have hiv : i < vals.length := h2
    simp only [bruteForceRow, List.getElem_map]
    by_cases hv : vals[i] = 1
    · rw [if_pos ((mem_roiSource_nodup R vals hnd hlen i hiR hiv).mpr hv)]
      exact hv.symm
    · have h0 : vals[i] = 0 := by
        rcases h01 vals[i] (List.getElem_mem hiv) with h | h
        · exact h
        · exact absurd h hv
      rw [if_neg (fun hmem => hv ((mem_roiSource_nodup R vals hnd hlen i hiR hiv).mp hmem))]
      exact h0.symm

lemma vstack_of_uniform (rows : List (List ℚ)) (hne : rows ≠ []) (n : ℕ)
    (hall : ∀ r ∈ rows, r.length = n) : vstack rows = some rows := by
  cases rows with
  | nil => exact absurd rfl hne
  | cons r rs =>
    have hr : r.length = n := hall r (List.mem_cons_self r rs)
    have : rs.all (fun s => decide (s.length = r.length)) = true := by
      rw [List.all_eq_true]
      intro s hs
      simp [hall s (List.mem_cons_of_mem r hs), hr]
    simp [vstack, this]

/-! ## Lemmas about the annot branch of `add_roilabel` -/

lemma annotColumns_ok (labels : List ℤ) (vd pre hemi : List Char)
    (h : hemiOf vd = some hemi) (i : ℤ) (names : List (List Char)) :
    annotColumns labels vd pre i names =
      .ok (writtenColumns labels pre hemi (enumRegions i names),
           skippedRegions labels (enumRegions i names)) := by
  induction names generalizing i with
  | nil => rfl
  | cons name rest ih =>
    by_cases hz : (regionFlag labels i).sum = 0
    · simp [annotColumns, hz, ih (i + 1), enumRegions, writtenColumns, skippedRegions,
        Except.map]
    · simp [annotColumns, hz, h, ih (i + 1), enumRegions, writtenColumns, skippedRegions,
        Except.map]

lemma annotColumns_all_empty (labels : List ℤ) (vd pre : List Char) (i : ℤ)
    (names : List (List Char))
    (h : ∀ p ∈ enumRegions i names, (regionFlag labels p.1).sum = 0) :
    annotColumns labels vd pre i names = .ok ([], names) := by
  induction names generalizing i with
  | nil => rfl
  | cons name rest ih =>
    have hz := h (i, name) (by simp [enumRegions])
    have hrest := ih (i + 1) (fun p hp => h p (by simp [enumRegions, hp]))
    simp [annotColumns, hz, hrest, Except.map]

lemma annotColumns_error (labels : List ℤ) (vd pre : List Char) (i : ℤ)
    (names : List (List Char)) (hhemi : hemiOf vd = none)
    (h : ∃ p ∈ enumRegions i names, (regionFlag labels p.1).sum ≠ 0) :
    annotColumns labels vd pre i names = .error () := by
  induction names generalizing i with
  | nil => simp [enumRegions] at h
  | cons name rest ih =>
    by_cases hz : (regionFlag labels i).sum = 0
    · have hrest : ∃ p ∈ enumRegions (i + 1) rest, (regionFlag labels p.1).sum ≠ 0 := by
        rcases h with ⟨p, hp, hne⟩
        rcases List.mem_cons.mp (by simpa [enumRegions] using hp) with rfl | hp'
        · exact absurd hz hne
        · exact ⟨p, hp', hne⟩
      simp [annotColumns, hz, ih (i + 1) hrest, Except.map]
    · simp [annotColumns, hz, hhemi]

/-! ## Claim theorems -/

/-- C1: for non-empty `R` and non-empty `S`, the slow-path matcher's row has
entry `j` equal to 1 iff the `j`-th coordinate of `R` equals at least one
coordinate of `S` (exact component-wise equality), and 0 otherwise; the
bounding-box pre-filter followed by exact matching produces exactly the
brute-force all-pairs row (the pre-filter never drops a true match). -/
theorem slowpath_matcher_correct (S R : List Coord) (hS : S ≠ []) (_hR : R ≠ []) :
    get_roiflag [S] R = some [bruteForceRow S R] ∧
    ∀ (j : ℕ) (hj : j < R.length),
      (bruteForceRow S R)[j]? = some (if R[j] ∈ S then (1 : ℚ) else 0) := by
  constructor
  · simp [get_roiflag, roiRow_eq_brute S R hS]
  · intro j hj
    simp [bruteForceRow, List.getElem?_map, List.getElem?_eq_getElem hj]

/-- C1 witness: the spec scenario `R = [(0,0,0),(1,0,0),(2,0,0)]`,
`S = [(1,0,0)]` yields the row `[0,1,0]`. -/
theorem slowpath_matcher_correct_witness :
    get_roiflag [[⟨1,0,0⟩]] [⟨0,0,0⟩, ⟨1,0,0⟩, ⟨2,0,0⟩] = some [[0, 1, 0]] :=
  ((slowpath_matcher_correct [⟨1,0,0⟩] [⟨0,0,0⟩, ⟨1,0,0⟩, ⟨2,0,0⟩]
    (by decide) (by decide)).1).trans (by decide)

/-- C2 counterexample: with the non-empty reference grid `[(0,0,0)]` and an
empty ROI coordinate set, `get_roiflag` does not return the all-zero row
`[[0]]`; it raises (`min()` of an empty sequence), modelled as `none`. -/
theorem empty_roi_raises_cex :
    get_roiflag [[]] [⟨0,0,0⟩] = none ∧ get_roiflag [[]] [⟨0,0,0⟩] ≠ some [[0]] := by
  decide

/-- C2 amended: calling the matcher with an empty ROI coordinate set raises an
error (Python `min()` on an empty sequence) instead of producing a row. -/
theorem empty_roi_raises (rois : List (List Coord)) (R : List Coord)
    (h : [] ∈ rois) : get_roiflag rois R = none :=
  get_roiflag_none_of_mem_nil rois R h

/-- C2 amended witness: a concrete empty ROI source aborts the matcher. -/
theorem empty_roi_raises_witness :
    get_roiflag [[⟨1,2,3⟩], []] [⟨1,2,3⟩, ⟨4,5,6⟩] = none :=
  empty_roi_raises [[⟨1,2,3⟩], []] [⟨1,2,3⟩, ⟨4,5,6⟩] (by decide)

/-- C5 counterexample: a mask voxel with the nonzero value 2 is dropped by
`add_roimask`'s filter (`mask_v == 1`), while the claim's "nonzero" rule would
keep it. -/
theorem roisource_nonzero_cex :
    nonzeroSource ⟨[⟨5,6,7⟩], [2]⟩ = [⟨5,6,7⟩] ∧
    roiSource ⟨[⟨5,6,7⟩], [2]⟩ = [] := by
  decide

/-- C5 amended: the ROI source passed to the matcher consists of exactly those
coordinates of the mask whose parallel voxel value equals 1 (not merely
nonzero). -/
theorem roisource_keeps_value_one (m : Mask) (c : Coord) :
    c ∈ roiSource m ↔
      ∃ (i : ℕ) (h1 : i < m.coords.length) (h2 : i < m.values.length),
        m.coords[i] = c ∧ m.values[i] = 1 := by
  rw [mem_roiSource_iff_zip]
  constructor
  · intro h
    obtain ⟨i, hi, hget⟩ := List.mem_iff_getElem.mp h
    have h1 : i < m.coords.length := lt_of_lt_of_le hi (by simp [List.length_zip])
    have h2 : i < m.values.length := lt_of_lt_of_le hi (by simp [List.length_zip])
    rw [List.getElem_zip] at hget
    exact ⟨i, h1, h2, congrArg Prod.fst hget, congrArg Prod.snd hget⟩
  · rintro ⟨i, h1, h2, hc, hv⟩
    have hz : i < (m.coords.zip m.values).length := by
      simp [List.length_zip]
      exact ⟨h1, h2⟩
    have : (m.coords.zip m.values)[i] = (c, (1 : ℚ)) := by
      rw [List.getElem_zip, hc, hv]
    rw [← this]
    exact List.getElem_mem hz

/-- C9: a mask whose coordinate array has a different number of voxels than
the reference grid (and is not broadcast-compatible with it, i.e. neither side
has a single voxel) makes `add_roimask` raise at the consistency comparison:
the call aborts, the consistency flag is never set false, and the matcher is
never reached. -/
theorem add_roimask_shape_mismatch_raises (R : List Coord) (masks : List Mask)
    (h : ∃ m ∈ masks,
      m.coords.length ≠ R.length ∧ m.coords.length ≠ 1 ∧ R.length ≠ 1) :
    add_roimask R masks = none := by
  simp [add_roimask, voxelConsistency_none R masks h]

/-- C9 witness: a two-voxel mask against a three-voxel grid aborts. -/
theorem add_roimask_shape_mismatch_raises_witness :
    add_roimask [⟨0,0,0⟩, ⟨1,0,0⟩, ⟨2,0,0⟩]
      [⟨[⟨0,0,0⟩, ⟨1,0,0⟩], [1, 1]⟩] = none :=
  add_roimask_shape_mismatch_raises [⟨0,0,0⟩, ⟨1,0,0⟩, ⟨2,0,0⟩]
    [⟨[⟨0,0,0⟩, ⟨1,0,0⟩], [1, 1]⟩] (by decide)

lemma get_roiflag_map_values (masks : List Mask) (R : List Coord)
    (key : ∀ m ∈ masks, roiRow (roiSource m) R = some m.values) :
    get_roiflag (masks.map roiSource) R = some (masks.map Mask.values) := by
  induction masks with
  | nil => rfl
  | cons m rest ih =>
    have hm := key m (List.mem_cons_self m rest)
    have hrest := ih (fun m' h => key m' (List.mem_cons_of_mem m h))
    simp [get_roiflag, hm, hrest]

/-- C3 counterexample: with grid `[(0,0,0),(1,0,0)]` and a mask on the same
grid whose values are all 0, the filtered ROI source (empty) differs from the
grid, yet `add_roimask` still takes the fast path and stacks the mask's value
vector; invoking the matcher instead (as the claim requires when any ROI
source fails the equality) would have raised. The consistency flag is computed
from the mask's full coordinate array, not from the ROI source. -/
theorem add_roimask_fastpath_cex :
    roiSource ⟨[⟨0,0,0⟩, ⟨1,0,0⟩], [0, 0]⟩ ≠ [⟨0,0,0⟩, ⟨1,0,0⟩] ∧
    add_roimask [⟨0,0,0⟩, ⟨1,0,0⟩] [⟨[⟨0,0,0⟩, ⟨1,0,0⟩], [0, 0]⟩]
      = some [[0, 0]] ∧
    get_roiflag [roiSource ⟨[⟨0,0,0⟩, ⟨1,0,0⟩], [0, 0]⟩] [⟨0,0,0⟩, ⟨1,0,0⟩]
      = none := by
  decide

/-- C3 amended: the fast-path decision is all-or-nothing, but the single
consistency boolean compares each mask's full (unfiltered) coordinate array —
not the filtered ROI source — against the reference grid for exact
order-preserving equality; if all masks pass, the matcher is skipped and the
masks' own value vectors are stacked; if any mask fails, the matcher runs on
every ROI source. (Stated for masks of the same voxel count as the grid, where
the comparison cannot raise.) -/
theorem add_roimask_all_or_nothing (R : List Coord) (masks : List Mask)
    (hlen : ∀ m ∈ masks, m.coords.length = R.length) :
    voxelConsistency R masks = some (masks.all (fun m => decide (m.coords = R))) ∧
    ((∀ m ∈ masks, m.coords = R) →
      add_roimask R masks = vstack (masks.map Mask.values)) ∧
    ((∃ m ∈ masks, m.coords ≠ R) →
      add_roimask R masks = get_roiflag (masks.map roiSource) R) := by
  have hvc := voxelConsistency_of_lengths R masks hlen
  refine ⟨hvc, ?_, ?_⟩
  · intro hall
    have ht : masks.all (fun m => decide (m.coords = R)) = true := by
      rw [List.all_eq_true]
      intro m hm
      exact decide_eq_true (hall m hm)
    exact add_roimask_of_consistent R masks (by rw [hvc, ht])
  · rintro ⟨m, hm, hne⟩
    have hf : masks.all (fun m => decide (m.coords = R)) = false := by
      cases hb : masks.all (fun m => decide (m.coords = R)) with
      | false => rfl
      | true => exact absurd (of_decide_eq_true (List.all_eq_true.mp hb m hm)) hne
    exact add_roimask_of_inconsistent R masks (by rw [hvc, hf])

/-- C3 amended witness: a mask identical to the grid takes the fast path. -/
theorem add_roimask_all_or_nothing_witness :
    add_roimask [⟨0,0,0⟩] [⟨[⟨0,0,0⟩], [1]⟩] = vstack [[1]] :=
  (add_roimask_all_or_nothing [⟨0,0,0⟩] [⟨[⟨0,0,0⟩], [1]⟩] (by decide)).2.1
    (by decide)

/-- C4 counterexample: grid-consistency holds (the mask's coordinates equal
the grid), the fast path returns the stacked indicator `[[0]]`, but forcing
the slow-path matcher on the same inputs raises (its ROI source is empty)
instead of producing the same matrix. -/
theorem fastpath_slowpath_disagree_cex :
    voxelConsistency [⟨0,0,0⟩] [⟨[⟨0,0,0⟩], [0]⟩] = some true ∧
    add_roimask [⟨0,0,0⟩] [⟨[⟨0,0,0⟩], [0]⟩] = some [[0]] ∧
    get_roiflag [roiSource ⟨[⟨0,0,0⟩], [0]⟩] [⟨0,0,0⟩] = none := by
  decide

/-- C4 amended: when grid-consistency holds, every mask's indicator values are
0/1 with at least one 1, and the grid has no duplicate coordinates, forcing
the slow-path matcher yields exactly the fast path's stacking of the per-voxel
indicator vectors. -/
theorem fastpath_slowpath_agree (R : List Coord) (masks : List Mask)
    (hne : masks ≠ [])
    (hco : ∀ m ∈ masks, m.coords = R)
    (hvl : ∀ m ∈ masks, m.values.length = R.length)
    (h01 : ∀ m ∈ masks, ∀ v ∈ m.values, v = 0 ∨ v = 1)
    (hnd : R.Nodup)
    (hone : ∀ m ∈ masks, (1 : ℚ) ∈ m.values) :
    add_roimask R masks = some (masks.map Mask.values) ∧
    get_roiflag (masks.map roiSource) R = some (masks.map Mask.values) := by
  have key : ∀ m ∈ masks, roiRow (roiSource m) R = some m.values := by
    intro m hm
    have hvlm : m.values.length = R.length := hvl m hm
    have h01m := h01 m hm
    have honem := hone m hm
    have hsrc : roiSource m = roiSource ⟨R, m.values⟩ := by
      unfold roiSource
      rw [hco m hm]
    rw [hsrc, roiRow_eq_brute _ _ (roiSource_ne_nil R m.values hvlm honem)]
    exact congrArg some (bruteForceRow_indicator R m.values hnd hvlm h01m)
  have hslow := get_roiflag_map_values masks R key
  refine ⟨?_, hslow⟩
  have hlen : ∀ m ∈ masks, m.coords.length = R.length := by
    intro m hm
    rw [hco m hm]
  have hvc := voxelConsistency_of_lengths R masks hlen
  have hall : masks.all (fun m => decide (m.coords = R)) = true := by
    rw [List.all_eq_true]
    intro m hm
    exact decide_eq_true (hco m hm)
  rw [add_roimask_of_consistent R masks (by rw [hvc, hall])]
  refine vstack_of_uniform _ ?_ R.length ?_
  · intro hmap
    exact hne (List.map_eq_nil_iff.mp hmap)
  · intro r hr
    obtain ⟨m, hm, rfl⟩ := List.mem_map.mp hr
    exact hvl m hm

/-- C4 amended witness: a 0/1 mask on the exact grid gives the same matrix on
both paths. -/
theorem fastpath_slowpath_agree_witness :
    add_roimask [⟨0,0,0⟩, ⟨1,0,0⟩] [⟨[⟨0,0,0⟩, ⟨1,0,0⟩], [1, 0]⟩]
      = some [[1, 0]] ∧
    get_roiflag [roiSource ⟨[⟨0,0,0⟩, ⟨1,0,0⟩], [1, 0]⟩] [⟨0,0,0⟩, ⟨1,0,0⟩]
      = some [[1, 0]] :=
  fastpath_slowpath_agree [⟨0,0,0⟩, ⟨1,0,0⟩] [⟨[⟨0,0,0⟩, ⟨1,0,0⟩], [1, 0]⟩]
    (by decide) (by decide) (by decide) (by decide) (by decide) (by decide)

/-- C6 counterexample: on the fast path a mask value of 2 reaches the
membership matrix unchanged, so matrix entries are not always 0 or 1. -/
theorem membership_matrix_binary_cex :
    add_roimask [⟨4,4,4⟩] [⟨[⟨4,4,4⟩], [2]⟩] = some [[2]] ∧
    ¬((2 : ℚ) = 0 ∨ (2 : ℚ) = 1) := by
  decide

/-- C6 amended: the slow-path matcher, on non-empty ROI sources, returns a
matrix with exactly K rows and N columns whose entries are all 0 or 1, and
row `i` is a function of ROI source `i` and the reference grid alone (the
brute-force row of source `i`); on the fast path the rows are the masks' raw
value vectors, so entries are 0/1 only when the mask values are. -/
theorem membership_matrix_shape (rois : List (List Coord)) (R : List Coord)
    (h : ∀ S ∈ rois, S ≠ []) :
    ∃ M, get_roiflag rois R = some M ∧
      M.length = rois.length ∧
      (∀ row ∈ M, row.length = R.length ∧ ∀ v ∈ row, v = 0 ∨ v = 1) ∧
      ∀ (i : ℕ) (h1 : i < rois.length) (h2 : i < M.length),
        M[i] = bruteForceRow rois[i] R := by
  refine ⟨rois.map (fun S => bruteForceRow S R), get_roiflag_eq_brute rois R h,
    by simp, ?_, ?_⟩
  · intro row hrow
    obtain ⟨S, hS, rfl⟩ := List.mem_map.mp hrow
    refine ⟨by simp [bruteForceRow], ?_⟩
    intro v hv
    obtain ⟨c, hc, rfl⟩ := List.mem_map.mp (by simpa [bruteForceRow] using hv)
    by_cases hcS : c ∈ S
    · right
      simp [hcS]
    · left
      simp [hcS]
  · intro i h1 h2
    simp [List.getElem_map]

/-- C6 amended witness: one ROI source against a two-voxel grid yields a
1-row matrix. -/
theorem membership_matrix_shape_witness :
    ∃ M, get_roiflag [[⟨0,0,0⟩]] [⟨0,0,0⟩, ⟨1,1,1⟩] = some M ∧ M.length = 1 := by
  obtain ⟨M, h1, h2, -, -⟩ :=
    membership_matrix_shape [[⟨0,0,0⟩]] [⟨0,0,0⟩, ⟨1,1,1⟩] (by decide)
  exact ⟨M, h1, by simpa using h2⟩

/-- C7: when processing an annot file (with an inferable hemisphere), a named
region matching zero vertices is skipped with a diagnostic — no column is
written for it and no error is raised — while every region matching at least
one vertex gets exactly one named metadata column, in region order. -/
theorem annot_skips_zero_regions (labels : List ℤ) (names : List (List Char))
    (vd pre hemi : List Char) (h : hemiOf vd = some hemi) :
    add_roilabel_annot labels names vd pre =
      .ok (writtenColumns labels pre hemi (enumRegions 0 names),
           skippedRegions labels (enumRegions 0 names)) :=
  annotColumns_ok labels vd pre hemi h 0 names

/-- C7 witness: the spec scenario — label names `["A","B"]` with `"B"`
matching zero vertices — writes only the column for `"A"` and records a
diagnostic for `"B"`. -/
theorem annot_skips_zero_regions_witness :
    add_roilabel_annot [0] [['A'], ['B']] ['L','e','f','t'] ['p'] =
      .ok ([(['p','_','l','h','.','A'], [1])], [['B']]) :=
  (annot_skips_zero_regions [0] [['A'], ['B']] ['L','e','f','t'] ['p'] ['l','h']
    (by decide)).trans (by decide)

/-- C8 counterexample: a `vertex_data` name containing the right-hemisphere
marker (`"LeftRight"`) is NOT inferred as right hemisphere — the left marker
is checked first, so the written column is named with `lh`. -/
theorem hemisphere_precedence_cex :
    strContains ['L','e','f','t','R','i','g','h','t'] rightMarker = true ∧
    add_roilabel_annot [0] [['A']] ['L','e','f','t','R','i','g','h','t'] [] =
      .ok ([(['_','l','h','.','A'], [1])], []) ∧
    (['_','l','h','.','A'] : List Char) ≠ ['_','r','h','.','A'] := by
  decide

/-- C8 amended: on an annot file with at least one region matching a vertex,
`add_roilabel` raises iff `vertex_data` contains neither hemisphere marker;
it infers the left hemisphere whenever the left marker occurs, and the right
hemisphere only when the right marker occurs and the left one does not (left
takes precedence). -/
theorem annot_hemisphere_inference (labels : List ℤ) (names : List (List Char))
    (vd pre : List Char)
    (hnz : ∃ p ∈ enumRegions 0 names, (regionFlag labels p.1).sum ≠ 0) :
    (add_roilabel_annot labels names vd pre = .error () ↔
      (strContains vd leftMarker = false ∧ strContains vd rightMarker = false)) ∧
    (strContains vd leftMarker = true →
      add_roilabel_annot labels names vd pre =
        .ok (writtenColumns labels pre ['l','h'] (enumRegions 0 names),
             skippedRegions labels (enumRegions 0 names))) ∧
    (strContains vd leftMarker = false → strContains vd rightMarker = true →
      add_roilabel_annot labels names vd pre =
        .ok (writtenColumns labels pre ['r','h'] (enumRegions 0 names),
             skippedRegions labels (enumRegions 0 names))) := by
  have hdef : add_roilabel_annot labels names vd pre
      = annotColumns labels vd pre 0 names := rfl
  refine ⟨⟨?_, ?_⟩, ?_, ?_⟩
  · intro herr
    constructor
    · cases hl : strContains vd leftMarker with
      | false => rfl
      | true =>
        rw [hdef, annotColumns_ok labels vd pre ['l','h']
          (by simp [hemiOf, hl]) 0 names] at herr
        exact absurd herr (by simp)
    · cases hr : strContains vd rightMarker with
      | false => rfl
      | true =>
        cases hl : strContains vd leftMarker with
        | true =>
          rw [hdef, annotColumns_ok labels vd pre ['l','h']
            (by simp [hemiOf, hl]) 0 names] at herr
          exact absurd herr (by simp)
        | false =>
          rw [hdef, annotColumns_ok labels vd pre ['r','h']
            (by simp [hemiOf, hl, hr]) 0 names] at herr
          exact absurd herr (by simp)
  · rintro ⟨hl, hr⟩
    rw [hdef]
    exact annotColumns_error labels vd pre 0 names (by simp [hemiOf, hl, hr]) hnz
  · intro hl
    rw [hdef]
    exact annotColumns_ok labels vd pre ['l','h'] (by simp [hemiOf, hl]) 0 names
  · intro hl hr
    rw [hdef]
    exact annotColumns_ok labels vd pre ['r','h'] (by simp [hemiOf, hl, hr]) 0 names

/-- C8 amended witness: a right-marker-only `vertex_data` yields an `rh`
column. -/
theorem annot_hemisphere_inference_witness :
    add_roilabel_annot [0] [['A']] ['R','i','g','h','t'] [] =
      .ok ([(['_','r','h','.','A'], [1])], []) :=
  ((annot_hemisphere_inference [0] [['A']] ['R','i','g','h','t'] []
    (by decide)).2.2 (by decide) (by decide)).trans (by decide)

/-- C10 counterexample: an annot file whose single region matches zero
vertices of the container's `vertex_index` metadata (here empty) still raises
when `vertex_data` has no hemisphere marker, because the skip test uses the
annot file's own per-vertex label array (where region 0 does match a vertex),
never `vertex_index`. -/
theorem annot_vertex_index_cex :
    containerMatchCount [0] [] 0 = 0 ∧
    add_roilabel_annot [0] [['A']] ['V','D'] [] = .error () := by
  decide

/-- C10 amended: the zero-match skip precedes hemisphere inference, so when
every named region matches zero vertices in the annot file's own per-vertex
label array, the call completes without raising — even when `vertex_data`
contains no hemisphere marker — writing no columns and logging every region. -/
theorem annot_all_zero_regions_ok (labels : List ℤ) (names : List (List Char))
    (vd pre : List Char)
    (h : ∀ p ∈ enumRegions 0 names, (regionFlag labels p.1).sum = 0) :
    add_roilabel_annot labels names vd pre = .ok ([], names) :=
  annotColumns_all_empty labels vd pre 0 names h

/-- C10 amended witness: two all-unmatched regions, no hemisphere marker, no
error. -/
theorem annot_all_zero_regions_ok_witness :
    add_roilabel_annot [5] [['A'], ['B']] ['V','D'] [] =
      .ok ([], [['A'], ['B']]) :=
  annot_all_zero_regions_ok [5] [['A'], ['B']] ['V','D'] [] (by decide)

/-- C5 amended witness: a voxel with value 1 is kept in the ROI source. -/
theorem roisource_keeps_value_one_witness :
    (⟨1,2,3⟩ : Coord) ∈ roiSource ⟨[⟨1,2,3⟩], [1]⟩ :=
  (roisource_keeps_value_one ⟨[⟨1,2,3⟩], [1]⟩ ⟨1,2,3⟩).mpr
    ⟨0, by decide, by decide, by decide, by decide⟩
